import Mathlib

/-!
Shallow embedding of the pagination / navigation engine of
`botbot/apps/logs/views.py` (brainzbot-core), together with proofs of the
spec claims about it.

Modelling conventions:
* instants are `Int` milliseconds; a calendar day spans `dayMs` of them;
* a timezone is its fixed UTC offset in milliseconds (`off`);
* a Django queryset is a `List Msg`; `order_by` is a sort, `filter` is
  `List.filter`, `[0]` is `List.head?` (an `IndexError` is the `none` case);
* URLs are abstracted to their navigation target: the day-start instant the
  URL's year/month/day encode, paired with the `page` query parameter.
-/

set_option autoImplicit false

namespace Botbot

/-- Milliseconds in one calendar day (`datetime.timedelta(days=1)`). -/
def dayMs : Int := 86400000

/-- A log line, as the fields of `botbot.apps.logs.models.Log` used by the
views: primary key, UTC timestamp, nick and IRC command. -/
structure Msg where
  pk : Nat
  timestamp : Int
  nick : List Char
  command : String
deriving DecidableEq, Repr

/-- Ascending `order_by("timestamp")` comparison. -/
def tsLe (a b : Msg) : Prop := a.timestamp ≤ b.timestamp

/-- Descending `order_by("-timestamp")` comparison. -/
def tsGe (a b : Msg) : Prop := b.timestamp ≤ a.timestamp

instance : DecidableRel tsLe := fun a b => inferInstanceAs (Decidable (a.timestamp ≤ b.timestamp))

instance : DecidableRel tsGe := fun a b => inferInstanceAs (Decidable (b.timestamp ≤ a.timestamp))

instance : IsTotal Msg tsLe := ⟨fun a b => Int.le_total a.timestamp b.timestamp⟩

instance : IsTotal Msg tsGe := ⟨fun a b => Int.le_total b.timestamp a.timestamp⟩

instance : IsTrans Msg tsLe := ⟨fun _ _ _ hab hbc => le_trans hab hbc⟩

instance : IsTrans Msg tsGe := ⟨fun _ _ _ hab hbc => le_trans hbc hab⟩

/-- Models `LogViewer.get_ordered_queryset`: `order_by("timestamp")` when
`newest_first` is false, `order_by("-timestamp")` when true. -/
def get_ordered_queryset (newest_first : Bool) (qs : List Msg) : List Msg :=
  if newest_first then List.insertionSort tsGe qs else List.insertionSort tsLe qs

/-- Modelled from the spec: `channel.filtered_logs()` lives in the bots app,
outside `src/`. Per the spec it returns the channel's visible log lines and
the DayResolver reads "the latest message with `timestamp < day.start`" off
the first row of the unordered query, so the store's default order is
latest-first by timestamp. -/
def filtered_logs (channel : List Msg) : List Msg :=
  List.insertionSort tsGe channel

/-- Models `LogDateMixin._local_date_at_midnight`: cast the UTC instant into
the request timezone (offset `off`), truncate to that day's local midnight,
and return that midnight as a UTC instant. -/
def _local_date_at_midnight (off ts : Int) : Int :=
  dayMs * ((ts + off).ediv dayMs) - off

/-- UTC calendar date of a stored timestamp, as the UTC-midnight instant;
models reading `.year`/`.month`/`.day` (or `.date()`) of a UTC datetime. -/
def utc_date (ts : Int) : Int :=
  dayMs * (ts.ediv dayMs)

/-- Models `LogDateMixin._get_previous_date`: first row of the default-order
(filtered) logs with `timestamp < date`, taken to local midnight. -/
def _get_previous_date (channel : List Msg) (off date : Int) : Option Int :=
  (((filtered_logs channel).filter (fun m => decide (m.timestamp < date))).head?).map
    (fun m => _local_date_at_midnight off m.timestamp)

/-- Models `LogDateMixin._get_next_date`: first row, in ascending timestamp
order, of the logs with `timestamp >= date + 1 day`, taken to local
midnight. -/
def _get_next_date (channel : List Msg) (off date : Int) : Option Int :=
  ((List.insertionSort tsLe
      ((filtered_logs channel).filter (fun m => decide (dayMs + date ≤ m.timestamp)))).head?).map
    (fun m => _local_date_at_midnight off m.timestamp)

/-- Models `LogDateMixin._date_query_set`: the channel's logs with
`date <= timestamp < date + 1 day`. -/
def _date_query_set (channel : List Msg) (date : Int) : List Msg :=
  (filtered_logs channel).filter
    (fun m => decide (date ≤ m.timestamp) && decide (m.timestamp < date + dayMs))

/-- Models `DayLogViewer.get_queryset`: the filtered logs ordered ascending
(`newest_first = False`), restricted to `[date, date + 1 day)`. -/
def day_get_queryset (channel : List Msg) (date : Int) : List Msg :=
  (get_ordered_queryset false (filtered_logs channel)).filter
    (fun m => decide (date ≤ m.timestamp) && decide (m.timestamp < date + dayMs))

/-- Models Django's `Paginator.num_pages` with `orphans = 0` and
`allow_empty_first_page = True`: `ceil(count / size)`, but an empty object
list still yields one (empty) page. -/
def num_pages (count size : Nat) : Nat :=
  if count = 0 then 1 else (count + size - 1) / size

/-- Models Django's `Page.object_list` for 1-indexed page `n`: the slice
`[(n-1)*size, n*size)` of the ordered object list. -/
def page_slice (qs : List Msg) (size n : Nat) : List Msg :=
  (qs.drop ((n - 1) * size)).take size

/-- Models `DayLogViewer.get_next_page_link`, with the URL abstracted to its
target `(day-start instant, page number)`. `page.has_next()` is
`page < num_pages`; otherwise `_get_next_date` is consulted and a found day
restarts at page 1, while no found day yields no link (the empty string). -/
def get_next_page_link (channel : List Msg) (off date : Int) (size page : Nat) :
    Option (Int × Nat) :=
  if page < num_pages (day_get_queryset channel date).length size then
    some (date, page + 1)
  else
    match _get_next_date channel off date with
    | some d => some (d, 1)
    | none => none

/-- Models the `is_current` flag set by `DayLogViewer.paginate_queryset`:
true exactly when `get_next_page_link` produced no link. -/
def day_is_current (channel : List Msg) (off date : Int) (size page : Nat) : Bool :=
  (get_next_page_link channel off date size page).isNone

/-- Models `DayLogViewer.get_previous_page_link`: `page.has_previous()` is
`1 < page`; otherwise `_get_previous_date` is consulted and a found day is
entered at its paginator's `num_pages` (its last page), while no found day
yields no link (`None`). -/
def get_previous_page_link (channel : List Msg) (off date : Int) (size page : Nat) :
    Option (Int × Nat) :=
  if 1 < page then
    some (date, page - 1)
  else
    match _get_previous_date channel off date with
    | some d => some (d, num_pages (_date_query_set channel d).length size)
    | none => none

/-- Outcome of a view's `get`, abstracted: a rendered message list, an HTTP
redirect to a day URL (its target day-start instant), or an `Http404`. -/
inductive HttpResult where
  | render (messages : List Msg)
  | redirectTo (target : Int)
  | notFound (msg : String)
deriving DecidableEq, Repr

/-- The class attribute `DayLogViewer.allow_empty`. -/
def ALLOW_EMPTY : Bool := true

/-- Models `DayLogViewer._nearby_log_url`: latest log with
`timestamp <= date`, else (when no past log exists) earliest log with
`timestamp >= date`; the URL is built from that log's timestamp's calendar
date (`channel_date_url`), with no `page` parameter. -/
def _nearby_log_url (channel : List Msg) (date : Int) : Option Int :=
  let past := (List.insertionSort tsGe (filtered_logs channel)).filter
    (fun m => decide (m.timestamp ≤ date))
  let closet_qs :=
    if past.isEmpty then
      (List.insertionSort tsLe (filtered_logs channel)).filter
        (fun m => decide (date ≤ m.timestamp))
    else past
  closet_qs.head?.map (fun m => utc_date m.timestamp)

/-- Models `DayLogViewer.get` up to rendering: the empty-queryset redirect
branch is guarded by `not self.get_allow_empty()`, so with
`ALLOW_EMPTY = true` the view always renders its (possibly empty) object
list. -/
def day_view_get (channel : List Msg) (date : Int) : HttpResult :=
  let object_list := day_get_queryset channel date
  if !ALLOW_EMPTY && object_list.isEmpty then
    match _nearby_log_url channel date with
    | some url => .redirectTo url
    | none => .notFound "Empty list"
  else .render object_list

/-- The Django cache, keyed by message pk: stored permalink target
`(day, page)` plus the timeout passed to `cache.set` (`none` = no expiry). -/
abbrev Cache : Type := List (Nat × ((Int × Nat) × Option Nat))

/-- Models `django.core.cache.cache.get` for permalink keys. -/
def cache_get (c : Cache) (key : Nat) : Option ((Int × Nat) × Option Nat) :=
  (c.find? (fun e => e.1 == key)).map (fun e => e.2)

/-- Models `django.core.cache.cache.set` for permalink keys. -/
def cache_set (c : Cache) (key : Nat) (v : Int × Nat) (timeout : Option Nat) : Cache :=
  (key, (v, timeout)) :: c

/-- Models the scan loop of `SingleLogViewer._permalink_to_log`: iterate `n`
over `paginator.page_range` (`1 .. num_pages`) and return the first page
whose object list contains the log (Django model equality is pk equality). -/
def find_page (qs : List Msg) (size pk : Nat) : Option Nat :=
  (List.range' 1 (num_pages qs.length size)).find?
    (fun n => (page_slice qs size n).any (fun m => m.pk == pk))

/-- Result of `_permalink_to_log`: the `(day, page)` target the returned URL
encodes, the cache afterwards, and whether the page scan ran. -/
structure PermalinkResult where
  target : Int × Nat
  cache : Cache
  scanned : Bool
deriving DecidableEq, Repr

/-- Models `SingleLogViewer._permalink_to_log` (with `SingleLogViewer.get`
having set `self.date = log.timestamp.date()`): on a cache hit the stored
target is returned with no page scan; on a miss the day's pages are scanned
in order from page 1, the result is stored with `timeout=None` (no expiry),
and a log found on no page is an `Http404` (`none`). -/
def _permalink_to_log (c : Cache) (channel : List Msg) (log : Msg) (size : Nat) :
    Option PermalinkResult :=
  let date := utc_date log.timestamp
  match cache_get c log.pk with
  | some (v, _) => some ⟨v, c, false⟩
  | none =>
    match find_page (day_get_queryset channel date) size log.pk with
    | some n => some ⟨(date, n), cache_set c log.pk (date, n) none, true⟩
    | none => none

/-- Lower-casing of a nick, for the `i`-prefixed (case-insensitive) Django
lookups. -/
def lowerN (s : List Char) : List Char := s.map Char.toLower

/-- Models the `nick__iexact` lookup. -/
def iexact (stored target : List Char) : Bool := lowerN stored == lowerN target

/-- Models the `nick__istartswith` lookup. -/
def istartswith (stored target : List Char) : Bool :=
  (lowerN target).isPrefixOf (lowerN stored)

/-- Models the nick filter of `MissedLogViewer.get_queryset`:
`Q(nick__iexact=nick) | Q(nick__istartswith=f"(nick)|") |
Q(nick__iexact=f"(nick)_")`. -/
def match_nick (stored nick : List Char) : Bool :=
  iexact stored nick || istartswith stored (nick ++ ['|']) || iexact stored (nick ++ ['_'])

/-- Models `Q(command="QUIT") | Q(command="PART")`. -/
def is_exit_cmd (m : Msg) : Bool := m.command == "QUIT" || m.command == "PART"

/-- The candidates of the `last_exit` lookup in
`MissedLogViewer.get_queryset`: the nick's QUIT/PART lines, ordered
newest-first (`order_by("-timestamp")`). -/
def exit_candidates (channel : List Msg) (nick : List Char) : List Msg :=
  List.insertionSort tsGe
    ((get_ordered_queryset false channel).filter
      (fun m => match_nick m.nick nick && is_exit_cmd m))

/-- The candidates of the `last_join` lookup in
`MissedLogViewer.get_queryset`: the nick's JOIN lines strictly after `t`,
ordered oldest-first (`order_by("timestamp")`). -/
def join_candidates (channel : List Msg) (nick : List Char) (t : Int) : List Msg :=
  List.insertionSort tsLe
    ((get_ordered_queryset false channel).filter
      (fun m => match_nick m.nick nick && (m.command == "JOIN") && decide (t < m.timestamp)))

/-- Models `MissedLogViewer.get_queryset`: no QUIT/PART for the nick is an
`Http404` (`none`); otherwise the ascending queryset is windowed by
`timestamp__range=(last_exit, last_join)` (inclusive both ends) when a later
JOIN exists, else by `timestamp__gte=last_exit`, and `fetch_after` is
`last_exit.timestamp - 1ms`. -/
def missed_get_queryset (channel : List Msg) (nick : List Char) :
    Option (List Msg × Int) :=
  let queryset := get_ordered_queryset false channel
  match (exit_candidates channel nick).head? with
  | none => none
  | some last_exit =>
    let msgs :=
      match (join_candidates channel nick last_exit.timestamp).head? with
      | some last_join =>
        queryset.filter (fun m =>
          decide (last_exit.timestamp ≤ m.timestamp) &&
          decide (m.timestamp ≤ last_join.timestamp))
      | none =>
        queryset.filter (fun m => decide (last_exit.timestamp ≤ m.timestamp))
    some (msgs, last_exit.timestamp - 1)

/-- The context `_timeline_context` builds: the remaining catalog, the week
boundaries and the real/adjusted last-month representative dates.
Representative dates are day numbers (`Int`). -/
structure TimelineCtx where
  timeline : List (Int × List Int)
  this_week : Int
  last_week : Int
  last_month_real : Int
  last_month_adjusted : Int
deriving DecidableEq, Repr

/-- Outcome of `_timeline_context`: the empty dict for an empty catalog, an
`IndexError` (`err`) when the popped entry's value list is empty, or the
built context. -/
inductive TimelineOut where
  | empty
  | err
  | ctx (c : TimelineCtx)
deriving DecidableEq, Repr

/-- Models `_timeline_context`. The catalog is an ordered dict
`key -> month representative dates`; the clock is passed in as `today` (a
day number) with `weekday = today.weekday()`. `popitem(last=True)[1][-1]`
pops the last entry and takes its last date; then the most recent month is
adjusted so it does not order ahead of the week buckets. -/
def _timeline_context (timeline : List (Int × List Int)) (today weekday : Int) :
    TimelineOut :=
  if timeline.isEmpty then .empty
  else
    let last_monday := today - weekday
    let last_week := last_monday - 7
    match timeline.getLast? with
    | none => .err
    | some entry =>
      match entry.2.getLast? with
      | none => .err
      | some last_month =>
        let last_month_adjusted :=
          if last_week ≤ last_month then last_week - 1
          else if last_monday ≤ last_month then last_monday - 1
          else last_month
        .ctx ⟨timeline.dropLast, last_monday, last_week, last_month, last_month_adjusted⟩

/-- Models Python's `int(str)` as used on URL kwargs: optional surrounding
whitespace, an optional sign, then decimal digits; anything else raises
`ValueError` (`none`). -/
def py_int (s : String) : Option Int :=
  let cs := s.toList.dropWhile Char.isWhitespace
  let cs := (cs.reverse.dropWhile Char.isWhitespace).reverse
  let sd : Int × List Char :=
    match cs with
    | '+' :: rest => (1, rest)
    | '-' :: rest => (-1, rest)
    | _ => (1, cs)
  if sd.2.isEmpty || !sd.2.all Char.isDigit then none
  else some (sd.1 * (sd.2.foldl (fun acc c => acc * 10 + (c.toNat - 48)) (0 : Nat) : Nat))

/-- Gregorian leap year, as `datetime` uses it. -/
def is_leap (y : Int) : Bool := y % 4 == 0 && (y % 100 != 0 || y % 400 == 0)

/-- Days in a month, as `datetime` uses it. -/
def days_in_month (y m : Int) : Int :=
  if m == 2 then (if is_leap y then 29 else 28)
  else if m == 4 || m == 6 || m == 9 || m == 11 then 30
  else 31

/-- A `(year, month, day)` triple `datetime.datetime` accepts without
raising `ValueError` (`MINYEAR = 1`, `MAXYEAR = 9999`). -/
def valid_datetime_date (y m d : Int) : Bool :=
  decide (1 ≤ y) && decide (y ≤ 9999) && decide (1 ≤ m) && decide (m ≤ 12) &&
  decide (1 ≤ d) && decide (d ≤ days_in_month y m)

/-- What `DayLogViewer.set_view_date` determines: a concrete requested date,
or the fallback (today's date with `kwargs["page"] = "last"`). -/
inductive ViewDate where
  | onDate (y m d : Int)
  | todayLast
deriving DecidableEq, Repr

/-- Models `DayLogViewer.set_view_date`: when `year`, `month` and `day` are
all present in the URL kwargs, parse them with `int` and build a
`datetime`, turning a `ValueError` into `Http404("Invalid date.")`
(`Except.error`); when any of them is missing, fall back to today's date at
the last page. -/
def set_view_date (year month day : Option String) : Except String ViewDate :=
  if year.isSome && month.isSome && day.isSome then
    match py_int (year.getD ""), py_int (month.getD ""), py_int (day.getD "") with
    | some y, some m, some d =>
      if valid_datetime_date y m d then .ok (.onDate y m d)
      else .error "Invalid date."
    | _, _, _ => .error "Invalid date."
  else .ok .todayLast

/-- Models `pytz.timezone`: the IANA database is the parameter `known`; an
unknown name raises `UnknownTimeZoneError` (`Except.error`). -/
def pytz_timezone (known : List String) (name : String) : Except Unit String :=
  if known.contains name then .ok name else .error ()

/-- Models `DayLogViewer.request_timezone`: try the `tz` GET parameter
(defaulting to the empty string), and on `UnknownTimeZoneError` fall back to
`pytz.timezone("UTC")`. `none` is an uncaught exception from the fallback
itself, impossible while `"UTC"` is in the database. -/
def request_timezone (known : List String) (tz_param : Option String) : Option String :=
  match pytz_timezone known (tz_param.getD "") with
  | .ok t => some t
  | .error _ =>
    match pytz_timezone known "UTC" with
    | .ok t => some t
    | .error _ => none

/-- Fixture: a message on the UTC day starting at instant 0. -/
def wA : Msg := ⟨1, 0, ['a'], "PRIVMSG"⟩

/-- Fixture: a message on the UTC day starting at instant `dayMs`. -/
def wB : Msg := ⟨2, 86400000, ['b'], "PRIVMSG"⟩

/-- Fixture: a second message on the UTC day starting at instant 0. -/
def wC : Msg := ⟨3, 100, ['c'], "PRIVMSG"⟩

/-- Fixture: a channel with messages on two consecutive days. -/
def wLogs : List Msg := [wA, wB]

/-- Fixture: a channel with two messages on one day. -/
def wLogs2 : List Msg := [wA, wC]

/-- Fixture nick "alice". -/
def wAlice : List Char := ['a', 'l', 'i', 'c', 'e']

/-- Fixture: alice's QUIT at instant 1000. -/
def wQuit : Msg := ⟨10, 1000, wAlice, "QUIT"⟩

/-- Fixture: alice's JOIN at instant 2000. -/
def wJoin : Msg := ⟨11, 2000, wAlice, "JOIN"⟩

/-- Fixture: bob's message at instant 999 (inside the claimed window, outside
the code's). -/
def wBob : Msg := ⟨9, 999, ['b', 'o', 'b'], "PRIVMSG"⟩

/-- Fixture: channel for the missed-activity claims. -/
def wMissed : List Msg := [wBob, wQuit, wJoin]

/-- The guarantee `missed_get_queryset` gives on success: `e` is the nick's
most recent QUIT/PART; `fetch_after` is `e.timestamp - 1ms`; when a
matching JOIN strictly after `e` exists, the returned messages are exactly
the channel's messages in the inclusive window `[e.timestamp, j.timestamp]`
for the earliest such JOIN `j`; when none exists they are exactly those in
`[e.timestamp, +infinity)`. -/
def MissedSpec (channel : List Msg) (nick : List Char) (msgs : List Msg) (fa : Int) : Prop :=
  ∃ e, e ∈ channel ∧ match_nick e.nick nick = true ∧ is_exit_cmd e = true ∧
    (∀ b ∈ channel, match_nick b.nick nick = true → is_exit_cmd b = true →
      b.timestamp ≤ e.timestamp) ∧
    fa = e.timestamp - 1 ∧
    ((∃ j, j ∈ channel ∧ match_nick j.nick nick = true ∧ j.command = "JOIN" ∧
        e.timestamp < j.timestamp) →
      ∃ j, j ∈ channel ∧ match_nick j.nick nick = true ∧ j.command = "JOIN" ∧
        e.timestamp < j.timestamp ∧
        (∀ b ∈ channel, match_nick b.nick nick = true → b.command = "JOIN" →
          e.timestamp < b.timestamp → j.timestamp ≤ b.timestamp) ∧
        (∀ m, m ∈ msgs ↔ m ∈ channel ∧ e.timestamp ≤ m.timestamp ∧
          m.timestamp ≤ j.timestamp)) ∧
    ((∀ j ∈ channel, match_nick j.nick nick = true → j.command = "JOIN" →
        j.timestamp ≤ e.timestamp) →
      (∀ m, m ∈ msgs ↔ m ∈ channel ∧ e.timestamp ≤ m.timestamp))

theorem head?_sorted_rel {r : Msg → Msg → Prop} {l : List Msg} {m : Msg}
    (hs : List.Sorted r l) (h : l.head? = some m) :
    m ∈ l ∧ ∀ b ∈ l, b = m ∨ r m b := by
  cases l with
  | nil => simp at h
  | cons a t =>
    have ham : a = m := by simpa using h
    subst ham
    refine ⟨List.mem_cons_self _ _, fun b hb => ?_⟩
    rcases List.mem_cons.mp hb with rfl | hbt
    · exact Or.inl rfl
    · exact Or.inr (List.rel_of_sorted_cons hs _ hbt)

theorem mem_sort_filter {r : Msg → Msg → Prop} [DecidableRel r] {l : List Msg}
    {p : Msg → Bool} {m : Msg} :
    m ∈ List.insertionSort r (l.filter p) ↔ m ∈ l ∧ p m = true := by
  rw [List.mem_insertionSort, List.mem_filter]

theorem head_sort_filter_asc {l : List Msg} {p : Msg → Bool} {m : Msg}
    (h : (List.insertionSort tsLe (l.filter p)).head? = some m) :
    (m ∈ l ∧ p m = true) ∧ ∀ b ∈ l, p b = true → m.timestamp ≤ b.timestamp := by
  obtain ⟨hmem, hmin⟩ :=
    head?_sorted_rel (List.sorted_insertionSort tsLe (l.filter p)) h
  refine ⟨mem_sort_filter.mp hmem, fun b hb hpb => ?_⟩
  rcases hmin b (mem_sort_filter.mpr ⟨hb, hpb⟩) with rfl | hr
  · exact le_refl _
  · exact hr

theorem head_sort_filter_desc {l : List Msg} {p : Msg → Bool} {m : Msg}
    (h : (List.insertionSort tsGe (l.filter p)).head? = some m) :
    (m ∈ l ∧ p m = true) ∧ ∀ b ∈ l, p b = true → b.timestamp ≤ m.timestamp := by
  obtain ⟨hmem, hmin⟩ :=
    head?_sorted_rel (List.sorted_insertionSort tsGe (l.filter p)) h
  refine ⟨mem_sort_filter.mp hmem, fun b hb hpb => ?_⟩
  rcases hmin b (mem_sort_filter.mpr ⟨hb, hpb⟩) with rfl | hr
  · exact le_refl _
  · exact hr

theorem head_sort_filter_none {r : Msg → Msg → Prop} [DecidableRel r] {l : List Msg}
    {p : Msg → Bool}
    (h : (List.insertionSort r (l.filter p)).head? = none) :
    ∀ b ∈ l, p b = false := by
  have hnil : List.insertionSort r (l.filter p) = [] := List.head?_eq_none_iff.mp h
  intro b hb
  cases hpb : p b
  · rfl
  · exfalso
    have : b ∈ List.insertionSort r (l.filter p) := mem_sort_filter.mpr ⟨hb, hpb⟩
    rw [hnil] at this
    simp at this

theorem head_filter_sorted_desc {l : List Msg} {p : Msg → Bool} {m : Msg}
    (hs : List.Sorted tsGe l) (h : (l.filter p).head? = some m) :
    (m ∈ l ∧ p m = true) ∧ ∀ b ∈ l, p b = true → b.timestamp ≤ m.timestamp := by
  have hsf : List.Sorted tsGe (l.filter p) :=
    List.Pairwise.sublist (List.filter_sublist l) hs
  obtain ⟨hmem, hmin⟩ := head?_sorted_rel hsf h
  have hm := List.mem_filter.mp hmem
  refine ⟨hm, fun b hb hpb => ?_⟩
  rcases hmin b (List.mem_filter.mpr ⟨hb, hpb⟩) with rfl | hr
  · exact le_refl _
  · exact hr

theorem head_filter_sorted_asc {l : List Msg} {p : Msg → Bool} {m : Msg}
    (hs : List.Sorted tsLe l) (h : (l.filter p).head? = some m) :
    (m ∈ l ∧ p m = true) ∧ ∀ b ∈ l, p b = true → m.timestamp ≤ b.timestamp := by
  have hsf : List.Sorted tsLe (l.filter p) :=
    List.Pairwise.sublist (List.filter_sublist l) hs
  obtain ⟨hmem, hmin⟩ := head?_sorted_rel hsf h
  have hm := List.mem_filter.mp hmem
  refine ⟨hm, fun b hb hpb => ?_⟩
  rcases hmin b (List.mem_filter.mpr ⟨hb, hpb⟩) with rfl | hr
  · exact le_refl _
  · exact hr

theorem head_filter_none {l : List Msg} {p : Msg → Bool}
    (h : (l.filter p).head? = none) :
    ∀ b ∈ l, p b = false := by
  have hnil : l.filter p = [] := List.head?_eq_none_iff.mp h
  intro b hb
  cases hpb : p b
  · rfl
  · exfalso
    have : b ∈ l.filter p := List.mem_filter.mpr ⟨hb, hpb⟩
    rw [hnil] at this
    simp at this

theorem mem_filtered_logs {channel : List Msg} {m : Msg} :
    m ∈ filtered_logs channel ↔ m ∈ channel := by
  rw [filtered_logs, List.mem_insertionSort]

/-- C1: for a day-scoped page request, when the current page has a following
page in the same day the next link targets `(currentDay, page_number + 1)`;
otherwise, when some log exists on a later day the next link targets
`(nextNonEmptyDay, 1)` (the local-midnight day of the earliest such log);
when none exists there is no next link; and the `is_current` live-page
marker is set exactly when the next link is absent. -/
theorem next_link_spec (channel : List Msg) (off date : Int) (size page : Nat) :
    (page < num_pages (day_get_queryset channel date).length size →
      get_next_page_link channel off date size page = some (date, page + 1)) ∧
    (¬ page < num_pages (day_get_queryset channel date).length size →
      ∀ m ∈ channel, dayMs + date ≤ m.timestamp →
        (∀ b ∈ channel, dayMs + date ≤ b.timestamp → m.timestamp ≤ b.timestamp) →
        get_next_page_link channel off date size page =
          some (_local_date_at_midnight off m.timestamp, 1)) ∧
    (¬ page < num_pages (day_get_queryset channel date).length size →
      (∀ m ∈ channel, m.timestamp < dayMs + date) →
      get_next_page_link channel off date size page = none) ∧
    (day_is_current channel off date size page = true ↔
      get_next_page_link channel off date size page = none) := by
  refine ⟨?_, ?_, ?_, ?_⟩
  · intro h
    rw [get_next_page_link, if_pos h]
  · intro h m hm hts hmin
    rw [get_next_page_link, if_neg h, _get_next_date]
    cases hh : (List.insertionSort tsLe
        ((filtered_logs channel).filter
          (fun mm => decide (dayMs + date ≤ mm.timestamp)))).head? with
    | none =>
      exfalso
      have := head_sort_filter_none hh m (mem_filtered_logs.mpr hm)
      rw [decide_eq_false_iff_not] at this
      exact this hts
    | some m0 =>
      obtain ⟨⟨hm0, hp0⟩, hmin0⟩ := head_sort_filter_asc hh
      rw [decide_eq_true_eq] at hp0
      have hts0 : m0.timestamp = m.timestamp :=
        le_antisymm
          (hmin0 m (mem_filtered_logs.mpr hm) (by simpa using hts))
          (hmin m0 (mem_filtered_logs.mp hm0) hp0)
      simp [hts0]
  · intro h hall
    rw [get_next_page_link, if_neg h, _get_next_date]
    cases hh : (List.insertionSort tsLe
        ((filtered_logs channel).filter
          (fun mm => decide (dayMs + date ≤ mm.timestamp)))).head? with
    | none => rfl
    | some m0 =>
      exfalso
      obtain ⟨⟨hm0, hp0⟩, _⟩ := head_sort_filter_asc hh
      rw [decide_eq_true_eq] at hp0
      exact absurd hp0 (not_le.mpr (hall m0 (mem_filtered_logs.mp hm0)))
  · rw [day_is_current]
    exact Option.isNone_iff_eq_none

/-- C1 witness: within-day next page, cross-day next link landing on page 1
of the next non-empty day, absence of a next link on the latest day, and the
`is_current` marker there. -/
theorem next_link_spec_witness :
    get_next_page_link wLogs2 0 0 1 1 = some (0, 2) ∧
    get_next_page_link wLogs 0 0 150 1 = some (86400000, 1) ∧
    get_next_page_link wLogs 0 86400000 150 1 = none ∧
    day_is_current wLogs 0 86400000 150 1 = true := by
  refine ⟨?_, ?_, ?_, ?_⟩
  · exact (next_link_spec wLogs2 0 0 1 1).1 (by decide)
  · exact ((next_link_spec wLogs 0 0 150 1).2.1 (by decide) wB (by decide)
      (by decide) (by decide)).trans (by decide)
  · exact (next_link_spec wLogs 0 86400000 150 1).2.2.1 (by decide) (by decide)
  · exact (next_link_spec wLogs 0 86400000 150 1).2.2.2.mpr
      ((next_link_spec wLogs 0 86400000 150 1).2.2.1 (by decide) (by decide))

/-- C2: for a day-scoped page request, when the current page number is
greater than 1 the previous link targets `(currentDay, page_number - 1)`;
otherwise, when some log exists before the current day the previous link
targets the previous non-empty day (the local-midnight day of the latest
such log) at that day's last page number `num_pages(thatDay)`; when no
earlier log exists there is no previous link. -/
theorem prev_link_spec (channel : List Msg) (off date : Int) (size page : Nat) :
    (1 < page →
      get_previous_page_link channel off date size page = some (date, page - 1)) ∧
    (¬ 1 < page →
      ∀ m ∈ channel, m.timestamp < date →
        (∀ b ∈ channel, b.timestamp < date → b.timestamp ≤ m.timestamp) →
        get_previous_page_link channel off date size page =
          some (_local_date_at_midnight off m.timestamp,
            num_pages
              (_date_query_set channel (_local_date_at_midnight off m.timestamp)).length
              size)) ∧
    (¬ 1 < page →
      (∀ m ∈ channel, date ≤ m.timestamp) →
      get_previous_page_link channel off date size page = none) := by
  have hsorted : List.Sorted tsGe (filtered_logs channel) := by
    rw [filtered_logs]
    exact List.sorted_insertionSort tsGe channel
  refine ⟨?_, ?_, ?_⟩
  · intro h
    rw [get_previous_page_link, if_pos h]
  · intro h m hm hts hmax
    rw [get_previous_page_link, if_neg h, _get_previous_date]
    cases hh : ((filtered_logs channel).filter
        (fun mm => decide (mm.timestamp < date))).head? with
    | none =>
      exfalso
      have := head_filter_none hh m (mem_filtered_logs.mpr hm)
      rw [decide_eq_false_iff_not] at this
      exact this hts
    | some m0 =>
      obtain ⟨⟨hm0, hp0⟩, hmax0⟩ := head_filter_sorted_desc hsorted hh
      rw [decide_eq_true_eq] at hp0
      have hts0 : m0.timestamp = m.timestamp :=
        le_antisymm
          (hmax m0 (mem_filtered_logs.mp hm0) hp0)
          (hmax0 m (mem_filtered_logs.mpr hm) (by simpa using hts))
      simp [hts0]
  · intro h hall
    rw [get_previous_page_link, if_neg h, _get_previous_date]
    cases hh : ((filtered_logs channel).filter
        (fun mm => decide (mm.timestamp < date))).head? with
    | none => rfl
    | some m0 =>
      exfalso
      obtain ⟨⟨hm0, hp0⟩, _⟩ := head_filter_sorted_desc hsorted hh
      rw [decide_eq_true_eq] at hp0
      exact absurd hp0 (not_lt.mpr (hall m0 (mem_filtered_logs.mp hm0)))

/-- C2 witness: within-day previous page, cross-day previous link landing on
the last page of the previous non-empty day, and absence of a previous link
on the earliest day. -/
theorem prev_link_spec_witness :
    get_previous_page_link wLogs2 0 0 1 2 = some (0, 1) ∧
    get_previous_page_link wLogs 0 86400000 150 1 = some (0, 1) ∧
    get_previous_page_link wLogs 0 0 150 1 = none := by
  refine ⟨?_, ?_, ?_⟩
  · exact (prev_link_spec wLogs2 0 0 1 2).1 (by decide)
  · exact ((prev_link_spec wLogs 0 86400000 150 1).2.1 (by decide) wA (by decide)
      (by decide) (by decide)).trans (by decide)
  · exact (prev_link_spec wLogs 0 0 150 1).2.2 (by decide) (by decide)

/-- C3: evaluation at the failing input. A channel has one message, on the
day starting at instant 0; the day starting at instant `dayMs` is requested
directly. Its queryset is empty and a non-empty past day exists (the nearby
lookup finds day 0), yet `DayLogViewer.get` renders an empty page instead
of redirecting, because `allow_empty = True` makes its redirect branch
unreachable. -/
theorem empty_day_renders_instead_of_redirecting :
    day_get_queryset [wA] 86400000 = [] ∧
    _nearby_log_url [wA] 86400000 = some 0 ∧
    day_view_get [wA] 86400000 = .render [] := by decide

theorem find?_range'_min {p : Nat → Bool} :
    ∀ (s len n : Nat), (List.range' s len).find? p = some n →
      ∀ k, s ≤ k → k < n → p k = false := by
  intro s len
  induction len generalizing s with
  | zero => intro n h; simp at h
  | succ l ih =>
    intro n h k hsk hkn
    have hrange : List.range' s (l + 1) = s :: List.range' (s + 1) l := rfl
    rw [hrange] at h
    cases hps : p s
    · rw [List.find?_cons_of_neg _ (by simp [hps])] at h
      rcases Nat.eq_or_lt_of_le hsk with rfl | hlt
      · exact hps
      · exact ih (s + 1) n h k hlt hkn
    · rw [List.find?_cons_of_pos _ hps] at h
      have : s = n := by simpa using h
      omega

/-- C4: permalink resolution is idempotent and memoized. Starting from a
cache with no entry for the message, a successful resolution scanned the
pages (`scanned = true`), targets the message's own day, lands on a page
that contains the message while every earlier page does not (the scan runs
in order from page 1), and stores the target under the message's key with
no expiry (`timeout = none`); resolving again with the resulting cache
returns the identical target with the cache unchanged and no scan
(`scanned = false`). -/
theorem permalink_resolution_spec (c : Cache) (channel : List Msg) (log : Msg)
    (size : Nat) (hmiss : cache_get c log.pk = none) (r : PermalinkResult)
    (hres : _permalink_to_log c channel log size = some r) :
    r.scanned = true ∧
    r.target.1 = utc_date log.timestamp ∧
    cache_get r.cache log.pk = some (r.target, none) ∧
    _permalink_to_log r.cache channel log size = some ⟨r.target, r.cache, false⟩ ∧
    (page_slice (day_get_queryset channel (utc_date log.timestamp)) size r.target.2).any
      (fun m => m.pk == log.pk) = true ∧
    (∀ n, 1 ≤ n → n < r.target.2 →
      (page_slice (day_get_queryset channel (utc_date log.timestamp)) size n).any
        (fun m => m.pk == log.pk) = false) := by
  rw [_permalink_to_log, hmiss] at hres
  cases hf : find_page (day_get_queryset channel (utc_date log.timestamp)) size log.pk with
  | none => rw [hf] at hres; exact absurd hres (by simp)
  | some n =>
    rw [hf] at hres
    have hr : r = ⟨(utc_date log.timestamp, n),
        cache_set c log.pk (utc_date log.timestamp, n) none, true⟩ := by
      cases hres
      rfl
    subst hr
    refine ⟨rfl, rfl, ?_, ?_, ?_, ?_⟩
    · simp [cache_get, cache_set]
    · rw [_permalink_to_log]
      have hhit : cache_get (cache_set c log.pk (utc_date log.timestamp, n) none) log.pk =
          some ((utc_date log.timestamp, n), none) := by
        simp [cache_get, cache_set]
      rw [hhit]
    · rw [find_page] at hf
      simpa using List.find?_some hf
    · intro k hk1 hkn
      rw [find_page] at hf
      simpa using find?_range'_min 1 (num_pages
        (day_get_queryset channel (utc_date log.timestamp)).length size) n hf k hk1 hkn

/-- C4 witness: a first resolution of the single message of a one-message
channel scans and caches `(day 0, page 1)` with no expiry, and the second
resolution returns the same target from the cache without scanning. -/
theorem permalink_resolution_spec_witness :
    _permalink_to_log [] [wA] wA 150 =
      some ⟨(0, 1), [(1, ((0, 1), none))], true⟩ ∧
    _permalink_to_log [(1, ((0, 1), none))] [wA] wA 150 =
      some ⟨(0, 1), [(1, ((0, 1), none))], false⟩ ∧
    cache_get [(1, ((0, 1), none))] 1 = some ((0, 1), none) := by
  have h := permalink_resolution_spec [] [wA] wA 150 (by decide)
    ⟨(0, 1), [(1, ((0, 1), none))], true⟩ (by decide)
  exact ⟨by decide, h.2.2.2.1, h.2.2.1⟩

theorem mem_ordered_queryset {channel : List Msg} {m : Msg} :
    m ∈ get_ordered_queryset false channel ↔ m ∈ channel := by
  simp [get_ordered_queryset, List.mem_insertionSort]

/-- C5 counterexample: in a channel where alice QUITs at T1 = 1000 and
JOINs at T2 = 2000, bob's message at 999 lies inside the claimed window
`[T1 - 1ms, T2]`, yet the returned messages are exactly the QUIT and the
JOIN — the code windows with an inclusive lower bound of T1 itself, and
only `fetch_after` gets the 1ms slack. -/
theorem missed_window_counterexample :
    missed_get_queryset wMissed wAlice = some ([wQuit, wJoin], 999) ∧
    wBob ∈ wMissed ∧
    wQuit.timestamp - 1 ≤ wBob.timestamp ∧
    wBob.timestamp ≤ wJoin.timestamp ∧
    [wQuit, wJoin].all (fun m => m.pk != wBob.pk) = true := by decide

/-- C5 (amended): on success, `missed_get_queryset` returns
`fetch_after = T1 - 1ms` for the nick's most recent QUIT/PART at T1, and
the message window `[T1, T2]` when the next matching JOIN is at T2, or
`[T1, +infinity)` when no such JOIN exists (the claimed `T1 - 1ms` lower
bound applies only to `fetch_after`, not to the window). -/
theorem missed_activity_spec (channel : List Msg) (nick : List Char)
    (msgs : List Msg) (fa : Int)
    (hres : missed_get_queryset channel nick = some (msgs, fa)) :
    MissedSpec channel nick msgs fa := by
  simp only [missed_get_queryset] at hres
  cases he : (exit_candidates channel nick).head? with
  | none => rw [he] at hres; exact absurd hres (by simp)
  | some e =>
    rw [he] at hres
    rw [Option.some.injEq, Prod.mk.injEq] at hres
    obtain ⟨hmsgs, hfa⟩ := hres
    subst hmsgs
    subst hfa
    rw [exit_candidates] at he
    obtain ⟨⟨hemem, heq⟩, hemax⟩ := head_sort_filter_desc he
    rw [Bool.and_eq_true] at heq
    refine ⟨e, mem_ordered_queryset.mp hemem, heq.1, heq.2, ?_, rfl, ?_, ?_⟩
    · intro b hb hbm hbe
      exact hemax b (mem_ordered_queryset.mpr hb) (by simp [hbm, hbe])
    · intro hex
      cases hj : (join_candidates channel nick e.timestamp).head? with
      | none =>
        exfalso
        obtain ⟨j0, hj0mem, hj0n, hj0c, hj0t⟩ := hex
        rw [join_candidates] at hj
        have := head_sort_filter_none hj j0 (mem_ordered_queryset.mpr hj0mem)
        simp [hj0n, hj0c, hj0t] at this
      | some j =>
        have hj' := hj
        rw [join_candidates] at hj'
        obtain ⟨⟨hjmem, hjq⟩, hjmin⟩ := head_sort_filter_asc hj'
        simp only [Bool.and_eq_true, beq_iff_eq, decide_eq_true_eq] at hjq
        refine ⟨j, mem_ordered_queryset.mp hjmem, hjq.1.1, hjq.1.2, hjq.2, ?_, ?_⟩
        · intro b hb h1 h2 h3
          exact hjmin b (mem_ordered_queryset.mpr hb) (by simp [h1, h2, h3])
        · intro m
          simp [List.mem_filter, mem_ordered_queryset, and_assoc]
    · intro hnever
      cases hj : (join_candidates channel nick e.timestamp).head? with
      | none =>
        intro m
        simp [List.mem_filter, mem_ordered_queryset]
      | some j =>
        exfalso
        rw [join_candidates] at hj
        obtain ⟨⟨hjmem, hjq⟩, _⟩ := head_sort_filter_asc hj
        simp only [Bool.and_eq_true, beq_iff_eq, decide_eq_true_eq] at hjq
        exact absurd (hnever j (mem_ordered_queryset.mp hjmem) hjq.1.1 hjq.1.2)
          (not_le.mpr hjq.2)

/-- C5 witness: the amended guarantee evaluated on the fixture channel —
alice's QUIT at 1000 and JOIN at 2000 yield the window `[1000, 2000]` and
`fetch_after = 999`. -/
theorem missed_activity_spec_witness :
    missed_get_queryset wMissed wAlice = some ([wQuit, wJoin], 999) ∧
    MissedSpec wMissed wAlice [wQuit, wJoin] 999 :=
  ⟨by decide, missed_activity_spec wMissed wAlice [wQuit, wJoin] 999 (by decide)⟩

/-- C6: an empty month catalog produces the empty output, and on a built
context the most recent month's representative date is adjusted to
`last_week_start - 1` when it is `>= last_week_start` (boundary inclusive),
else to `this_week_start - 1` when it is `>= this_week_start`, else left
unchanged, with `this_week_start = today - weekday` and
`last_week_start = this_week_start - 7`. -/
theorem timeline_adjustment_spec (timeline : List (Int × List Int)) (today weekday : Int) :
    (_timeline_context [] today weekday = .empty) ∧
    (∀ c, _timeline_context timeline today weekday = .ctx c →
      c.this_week = today - weekday ∧
      c.last_week = today - weekday - 7 ∧
      (c.last_week ≤ c.last_month_real →
        c.last_month_adjusted = c.last_week - 1) ∧
      (¬ c.last_week ≤ c.last_month_real → c.this_week ≤ c.last_month_real →
        c.last_month_adjusted = c.this_week - 1) ∧
      (¬ c.last_week ≤ c.last_month_real → ¬ c.this_week ≤ c.last_month_real →
        c.last_month_adjusted = c.last_month_real)) := by
  constructor
  · rfl
  · intro c h
    rw [_timeline_context] at h
    by_cases hemp : timeline.isEmpty
    · rw [if_pos hemp] at h
      simp at h
    · rw [if_neg hemp] at h
      cases hl : timeline.getLast? with
      | none => rw [hl] at h; simp at h
      | some entry =>
        rw [hl] at h
        dsimp only at h
        cases hl2 : entry.2.getLast? with
        | none => rw [hl2] at h; simp at h
        | some lm =>
          rw [hl2] at h
          dsimp only at h
          injection h with h
          subst h
          refine ⟨rfl, rfl, fun h1 => ?_, fun h1 h2 => ?_, fun h1 h2 => ?_⟩
          · exact if_pos h1
          · exact (if_neg h1).trans (if_pos h2)
          · exact (if_neg h1).trans (if_neg h2)

/-- C6 witness: a one-entry catalog with representative date 20, today 25
and weekday 3 builds the context with `this_week = 22`, `last_week = 15`
and the last month adjusted from 20 down to `15 - 1 = 14`; the empty
catalog yields the empty output. -/
theorem timeline_adjustment_spec_witness :
    _timeline_context ([] : List (Int × List Int)) 25 3 = .empty ∧
    _timeline_context [(2024, [10, 20])] 25 3 = .ctx ⟨[], 22, 15, 20, 14⟩ ∧
    (⟨[], 22, 15, 20, 14⟩ : TimelineCtx).last_month_adjusted =
      (⟨[], 22, 15, 20, 14⟩ : TimelineCtx).last_week - 1 := by
  refine ⟨(timeline_adjustment_spec [] 25 3).1, by decide, ?_⟩
  exact ((timeline_adjustment_spec [(2024, [10, 20])] 25 3).2
    ⟨[], 22, 15, 20, 14⟩ (by decide)).2.2.1 (by decide)

/-- C9: the `this_week_start - 1` adjustment branch of `_timeline_context`
is unreachable — since `last_week = this_week - 7`, every built context has
its adjusted last month equal either to `last_week - 1` or to the
unadjusted representative date. -/
theorem timeline_second_branch_unreachable (timeline : List (Int × List Int))
    (today weekday : Int) :
    ∀ c, _timeline_context timeline today weekday = .ctx c →
      c.last_month_adjusted = c.last_week - 1 ∨
      c.last_month_adjusted = c.last_month_real := by
  intro c h
  rw [_timeline_context] at h
  by_cases hemp : timeline.isEmpty
  · rw [if_pos hemp] at h
    simp at h
  · rw [if_neg hemp] at h
    cases hl : timeline.getLast? with
    | none => rw [hl] at h; simp at h
    | some entry =>
      rw [hl] at h
      dsimp only at h
      cases hl2 : entry.2.getLast? with
      | none => rw [hl2] at h; simp at h
      | some lm =>
        rw [hl2] at h
        dsimp only at h
        injection h with h
        subst h
        by_cases h1 : today - weekday - 7 ≤ lm
        · exact Or.inl (if_pos h1)
        · refine Or.inr ((if_neg h1).trans (if_neg fun h2 => h1 ?_))
          omega

/-- C9 witness: on the fixture catalog the adjusted value is
`last_week - 1`. -/
theorem timeline_second_branch_unreachable_witness :
    (⟨[], 22, 15, 20, 14⟩ : TimelineCtx).last_month_adjusted =
      (⟨[], 22, 15, 20, 14⟩ : TimelineCtx).last_week - 1 ∨
    (⟨[], 22, 15, 20, 14⟩ : TimelineCtx).last_month_adjusted =
      (⟨[], 22, 15, 20, 14⟩ : TimelineCtx).last_month_real :=
  timeline_second_branch_unreachable [(2024, [10, 20])] 25 3
    ⟨[], 22, 15, 20, 14⟩ (by decide)

/-- C7 counterexample: supplying only some of the `year`, `month`, `day`
parameters does not fail with "Invalid date." — `set_view_date` falls back
to today's date at the last page exactly as if none were supplied. -/
theorem partial_date_counterexample :
    set_view_date (some "2024") none none = .ok .todayLast ∧
    set_view_date none (some "05") (some "01") = .ok .todayLast := ⟨rfl, rfl⟩

/-- C7 (amended): when `year`, `month` and `day` are all supplied, malformed
components (non-integer or an impossible calendar date) fail with
"Invalid date." and well-formed ones are accepted; when any of the three is
missing the request does not fail — it behaves as if none were supplied,
falling back to today's date at the last page. -/
theorem set_view_date_spec (year month day : Option String) :
    (¬ (year.isSome && month.isSome && day.isSome) = true →
      set_view_date year month day = .ok .todayLast) ∧
    ((year.isSome && month.isSome && day.isSome) = true →
      ∀ y m d : Int,
        py_int (year.getD "") = some y → py_int (month.getD "") = some m →
        py_int (day.getD "") = some d →
        (valid_datetime_date y m d = true →
          set_view_date year month day = .ok (.onDate y m d)) ∧
        (valid_datetime_date y m d = false →
          set_view_date year month day = .error "Invalid date.")) ∧
    ((year.isSome && month.isSome && day.isSome) = true →
      (py_int (year.getD "") = none ∨ py_int (month.getD "") = none ∨
        py_int (day.getD "") = none) →
      set_view_date year month day = .error "Invalid date.") := by
  refine ⟨?_, ?_, ?_⟩
  · intro h
    rw [set_view_date, if_neg h]
  · intro h y m d hy hm hd
    rw [set_view_date, if_pos h, hy, hm, hd]
    constructor
    · intro hv
      simp [hv]
    · intro hv
      simp [hv]
  · intro h hnone
    rw [set_view_date, if_pos h]
    cases hy : py_int (year.getD "") with
    | none =>
      cases py_int (month.getD "") <;> cases py_int (day.getD "") <;> rfl
    | some y =>
      cases hm : py_int (month.getD "") with
      | none =>
        cases py_int (day.getD "") <;> rfl
      | some m =>
        cases hd : py_int (day.getD "") with
        | none => rfl
        | some d =>
          exfalso
          rcases hnone with h1 | h1 | h1
          · rw [hy] at h1; exact Option.noConfusion h1
          · rw [hm] at h1; exact Option.noConfusion h1
          · rw [hd] at h1; exact Option.noConfusion h1

/-- C7 witness: all-or-none behaviour on concrete inputs — a partial date
falls back, a valid full date parses, an impossible calendar date and a
non-integer component each fail with "Invalid date.". -/
theorem set_view_date_spec_witness :
    set_view_date (some "2024") none none = .ok .todayLast ∧
    set_view_date (some "2024") (some "02") (some "29") = .ok (.onDate 2024 2 29) ∧
    set_view_date (some "2023") (some "02") (some "29") = .error "Invalid date." ∧
    set_view_date (some "abc") (some "02") (some "28") = .error "Invalid date." := by
  refine ⟨(set_view_date_spec (some "2024") none none).1 (by decide), ?_, ?_, ?_⟩
  · exact ((set_view_date_spec (some "2024") (some "02") (some "29")).2.1 (by decide)
      2024 2 29 (by decide) (by decide) (by decide)).1 (by decide)
  · exact ((set_view_date_spec (some "2023") (some "02") (some "29")).2.1 (by decide)
      2023 2 29 (by decide) (by decide) (by decide)).2 (by decide)
  · exact (set_view_date_spec (some "abc") (some "02") (some "28")).2.2 (by decide)
      (Or.inl (by decide))

/-- C8: an unknown or invalid `tz` parameter never fails the request — as
long as the timezone database knows "UTC", `request_timezone` returns the
requested timezone when it is known and silently falls back to UTC when it
is not (including when the parameter is absent). -/
theorem request_timezone_spec (known : List String) (tz_param : Option String)
    (hutc : known.contains "UTC" = true) :
    (known.contains (tz_param.getD "") = true →
      request_timezone known tz_param = some (tz_param.getD "")) ∧
    (known.contains (tz_param.getD "") = false →
      request_timezone known tz_param = some "UTC") ∧
    (request_timezone known tz_param).isSome = true := by
  refine ⟨?_, ?_, ?_⟩
  · intro h
    rw [request_timezone, pytz_timezone, if_pos h]
  · intro h
    rw [request_timezone, pytz_timezone, if_neg (by rw [h]; exact Bool.false_ne_true)]
    rw [pytz_timezone, if_pos hutc]
  · rw [request_timezone, pytz_timezone]
    by_cases h : known.contains (tz_param.getD "") = true
    · rw [if_pos h]
      rfl
    · rw [if_neg h, pytz_timezone, if_pos hutc]
      rfl

/-- C8 witness: with a database containing UTC and US/Eastern, an unknown
zone and an absent parameter both fall back to UTC, and a known zone is
used as given. -/
theorem request_timezone_spec_witness :
    request_timezone ["UTC", "US/Eastern"] (some "Not/AZone") = some "UTC" ∧
    request_timezone ["UTC", "US/Eastern"] (some "US/Eastern") = some "US/Eastern" ∧
    request_timezone ["UTC", "US/Eastern"] none = some "UTC" :=
  ⟨(request_timezone_spec ["UTC", "US/Eastern"] (some "Not/AZone") (by decide)).2.1
      (by decide),
    (request_timezone_spec ["UTC", "US/Eastern"] (some "US/Eastern") (by decide)).1
      (by decide),
    (request_timezone_spec ["UTC", "US/Eastern"] none (by decide)).2.1 (by decide)⟩

/-- C10: the missed-activity nick filter matches a stored nick exactly when
it equals the requested nick case-insensitively, equals it with a trailing
underscore, or starts with it followed by a pipe (all case-insensitively);
and both the QUIT/PART lookup and the JOIN lookup of
`MissedLogViewer.get_queryset` select precisely the channel messages
passing this filter (with their respective command and timestamp
conditions). -/
theorem nick_matching_spec (stored nick : List Char) (channel : List Msg) (t : Int) :
    (match_nick stored nick = true ↔
      (lowerN stored = lowerN nick ∨ lowerN stored = lowerN nick ++ ['_'] ∨
        ∃ rest, lowerN stored = lowerN nick ++ '|' :: rest)) ∧
    (∀ m, m ∈ exit_candidates channel nick ↔
      m ∈ channel ∧ match_nick m.nick nick = true ∧ is_exit_cmd m = true) ∧
    (∀ m, m ∈ join_candidates channel nick t ↔
      m ∈ channel ∧ match_nick m.nick nick = true ∧ m.command = "JOIN" ∧
        t < m.timestamp) := by
  refine ⟨?_, ?_, ?_⟩
  · have hlow_u : lowerN (nick ++ ['_']) = lowerN nick ++ ['_'] := by
      rw [lowerN, lowerN, List.map_append,
        show List.map Char.toLower ['_'] = ['_'] from by decide]
    have hlow_p : lowerN (nick ++ ['|']) = lowerN nick ++ ['|'] := by
      rw [lowerN, lowerN, List.map_append,
        show List.map Char.toLower ['|'] = ['|'] from by decide]
    rw [match_nick, Bool.or_eq_true, Bool.or_eq_true, iexact, iexact, istartswith,
      hlow_u, hlow_p, beq_iff_eq, beq_iff_eq, List.isPrefixOf_iff_prefix]
    constructor
    · rintro ((h | ⟨rest, hrest⟩) | h)
      · exact Or.inl h
      · exact Or.inr (Or.inr ⟨rest, by rw [← hrest, List.append_assoc]; rfl⟩)
      · exact Or.inr (Or.inl h)
    · rintro (h | h | ⟨rest, hrest⟩)
      · exact Or.inl (Or.inl h)
      · exact Or.inr h
      · exact Or.inl (Or.inr ⟨rest, by rw [hrest, List.append_assoc]; rfl⟩)
  · intro m
    rw [exit_candidates]
    rw [mem_sort_filter, mem_ordered_queryset, Bool.and_eq_true]
  · intro m
    rw [join_candidates]
    rw [mem_sort_filter, mem_ordered_queryset, Bool.and_eq_true, Bool.and_eq_true,
      beq_iff_eq, decide_eq_true_eq]
    tauto

end Botbot
